import Mathlib

/-!
Verification development for the DupliGone near-duplicate photo pipeline.

The definitions below are a shallow embedding of the Python sources:
`src/services/image_processing.py` (perceptual-hash distances, elbow-based
radius selection, DBSCAN clustering), `src/tasks/image_tasks.py` and
`src/tasks/process_images.py` (the clustering / representative-selection
stage), `src/processing/quality.py` (quality scoring), `src/app.py`
(upload validation and deletion confirmation), and
`src/services/azure_storage.py` (blob naming).  Machine floats are
modelled as rationals, Python exceptions as `Except` / `Option`, and the
external libraries (OpenCV, sklearn's KneeLocator input, the Azure SDK)
as explicitly passed collaborator functions.
-/

namespace DupliGone

/-! ## Hex parsing and popcount (src/services/image_processing.py, calculate_hash_distance) -/

/-- Value of one hexadecimal digit, as Python `int(s, 16)` accepts them
(`0`-`9`, `a`-`f`, `A`-`F`); `none` for any other character. -/
def hexDigitVal (c : Char) : Option ℕ :=
  let n := c.toNat
  if 48 ≤ n ∧ n ≤ 57 then some (n - 48)
  else if 97 ≤ n ∧ n ≤ 102 then some (n - 97 + 10)
  else if 65 ≤ n ∧ n ≤ 70 then some (n - 65 + 10)
  else none

/-- Horner evaluation of a hex digit string, `none` on the first bad digit. -/
def hexListVal : List Char → ℕ → Option ℕ
  | [], acc => some acc
  | c :: cs, acc =>
    match hexDigitVal c with
    | none => none
    | some d => hexListVal cs (16 * acc + d)

/-- Python `int(s, 16)`: fails (ValueError) on the empty string or a
non-hex character, otherwise the base-16 value of `s`. -/
def hexToNat (s : String) : Option ℕ :=
  if s.data.isEmpty then none else hexListVal s.data 0

/-- Python `bin(x).count('1')`: the number of set bits of a natural number. -/
def popcount (n : ℕ) : ℕ :=
  if n = 0 then 0 else n % 2 + popcount (n / 2)
decreasing_by exact Nat.div_lt_self (Nat.pos_of_ne_zero (by assumption)) (by omega)

/-- `calculate_hash_distance` (src/services/image_processing.py lines 143-151):
convert both hex strings with `int(·, 16)` and count the set bits of their
xor.  A parse failure is Python's `ValueError`. -/
def calculate_hash_distance (hash1 hash2 : String) : Except String ℕ :=
  match hexToNat hash1, hexToNat hash2 with
  | some a, some b => .ok (popcount (a ^^^ b))
  | _, _ => .error "ValueError"

/-- The spec's Hamming distance (glossary): the number of bit positions,
among the 64 bits of two 64-bit values, where the two values differ. -/
def hammingBits64 (a b : ℕ) : ℕ :=
  ((Finset.range 64).filter (fun i => a.testBit i ≠ b.testBit i)).card

/-! Facts connecting `popcount` to counting differing bits. -/

theorem hexDigitVal_lt (c : Char) (d : ℕ) (h : hexDigitVal c = some d) : d < 16 := by
  simp only [hexDigitVal] at h
  split at h
  · injection h with h; omega
  · split at h
    · injection h with h; omega
    · split at h
      · injection h with h; omega
      · exact absurd h (by simp)

theorem hexListVal_lt (cs : List Char) :
    ∀ acc B v, hexListVal cs acc = some v → acc < B → v < B * 16 ^ cs.length := by
  induction cs with
  | nil =>
    intro acc B v h hB
    simp [hexListVal] at h
    simpa [h.symm] using hB
  | cons c cs ih =>
    intro acc B v h hB
    unfold hexListVal at h
    cases hd : hexDigitVal c with
    | none => rw [hd] at h; exact absurd h (by simp)
    | some d =>
      rw [hd] at h
      have hdlt : d < 16 := hexDigitVal_lt c d hd
      have hacc : 16 * acc + d < 16 * B := by omega
      have := ih (16 * acc + d) (16 * B) v h hacc
      calc v < 16 * B * 16 ^ cs.length := this
        _ = B * 16 ^ (cs.length + 1) := by ring

theorem hexToNat_lt_of_length (s : String) (v : ℕ) (h : hexToNat s = some v)
    (hlen : s.data.length = 16) : v < 2 ^ 64 := by
  unfold hexToNat at h
  split at h
  · exact absurd h (by simp)
  · have := hexListVal_lt s.data 0 1 v h (by omega)
    rw [hlen] at this
    calc v < 1 * 16 ^ 16 := this
      _ = 2 ^ 64 := by norm_num

theorem popcount_zero : popcount 0 = 0 := by
  unfold popcount; simp

theorem popcount_of_ne_zero (n : ℕ) (h : n ≠ 0) :
    popcount n = n % 2 + popcount (n / 2) := by
  conv_lhs => unfold popcount
  simp [h]

/-- For `n < 2 ^ k`, `popcount n` counts the set bits among positions `0..k-1`. -/
theorem popcount_eq_card_testBit :
    ∀ k n, n < 2 ^ k → popcount n = ((Finset.range k).filter (fun i => n.testBit i)).card := by
  intro k
  induction k with
  | zero =>
    intro n h
    interval_cases n
    simp [popcount_zero]
  | succ k ih =>
    intro n h
    by_cases hn : n = 0
    · subst hn
      simp [popcount_zero, Nat.zero_testBit]
    · have hdiv : n / 2 < 2 ^ k := by
        have h2 : 2 ^ (k + 1) = 2 * 2 ^ k := by ring
        omega
      rw [popcount_of_ne_zero n hn, ih (n / 2) hdiv]
      rw [Finset.card_filter, Finset.card_filter, Finset.sum_range_succ']
      have hbit0 : (if n.testBit 0 then (1 : ℕ) else 0) = n % 2 := by
        rcases Nat.mod_two_eq_zero_or_one n with h2 | h2 <;>
          simp [Nat.testBit_zero, h2]
      have hsum : (∑ i ∈ Finset.range k, if n.testBit (i + 1) then (1 : ℕ) else 0)
          = ∑ i ∈ Finset.range k, if (n / 2).testBit i then (1 : ℕ) else 0 :=
        Finset.sum_congr rfl (fun i _ => by rw [Nat.testBit_succ])
      rw [hbit0, hsum]
      omega

/-! ## Pairwise distance of combined hashes
(src/services/image_processing.py, cluster_similar_images lines 224-241) -/

/-- Python `'_' in s` over the character list of `s`. -/
def pyContainsUnderscore (s : String) : Bool := s.data.contains '_'

/-- Splitter for Python `s.split('_')` over a character list: cuts at every
underscore, keeping empty pieces, like `str.split` with an explicit
separator. -/
def splitUnderscoreAux : List Char → List Char → List (List Char)
  | [], cur => [cur.reverse]
  | x :: xs, cur =>
    if x = '_' then cur.reverse :: splitUnderscoreAux xs []
    else splitUnderscoreAux xs (x :: cur)

/-- Python `s.split('_')`. -/
def pySplitUnderscore (s : String) : List String :=
  (splitUnderscoreAux s.data []).map (fun cs => String.mk cs)

/-- The per-pair distance computed inside `cluster_similar_images`
(lines 227-241): a combined hash `"<phash>_<dhash>"` is split on `'_'`;
the distance is the arithmetic mean of the two Hamming distances
(`(phash_dist + dhash_dist) / 2.0`); a plain hash uses the single
Hamming distance.  List indexing and `int(·, 16)` faults are Python
`IndexError` / `ValueError`. -/
def pairDistance (h1 h2 : String) : Except String ℚ :=
  if pyContainsUnderscore h1 then
    match (pySplitUnderscore h1)[0]?, (pySplitUnderscore h1)[1]?,
          (pySplitUnderscore h2)[0]?, (pySplitUnderscore h2)[1]? with
    | some p1, some d1, some p2, some d2 =>
      match calculate_hash_distance p1 p2, calculate_hash_distance d1 d2 with
      | .ok pd, .ok dd => .ok (((pd : ℚ) + (dd : ℚ)) / 2)
      | .error s, _ => .error s
      | _, .error s => .error s
    | _, _, _, _ => .error "IndexError"
  else
    match calculate_hash_distance h1 h2 with
    | .ok d => .ok ((d : ℚ))
    | .error s => .error s

theorem popcount_xor_eq_hammingBits64 (a b : ℕ) (ha : a < 2 ^ 64) (hb : b < 2 ^ 64) :
    popcount (a ^^^ b) = hammingBits64 a b := by
  rw [popcount_eq_card_testBit 64 _ (Nat.xor_lt_two_pow ha hb)]
  unfold hammingBits64
  apply congrArg
  apply Finset.filter_congr
  intro i _
  cases ha' : a.testBit i <;> cases hb' : b.testBit i <;>
    simp [Nat.testBit_xor, ha', hb']

/-- C6: for every pair of Family B hash records, the combined distance used
for clustering (the per-pair value of `cluster_similar_images`) equals the
arithmetic mean of the two per-component Hamming distances, where the
Hamming distance of two 16-hex-character hashes is the number of differing
bits of their 64-bit values. -/
theorem combined_distance_is_mean_of_hamming
    (s1 s2 p1 d1 p2 d2 : String) (a1 b1 a2 b2 : ℕ)
    (hc : pyContainsUnderscore s1 = true)
    (hs1 : pySplitUnderscore s1 = [p1, d1]) (hs2 : pySplitUnderscore s2 = [p2, d2])
    (hl1 : p1.data.length = 16) (hl2 : p2.data.length = 16)
    (hl3 : d1.data.length = 16) (hl4 : d2.data.length = 16)
    (hv1 : hexToNat p1 = some a1) (hv2 : hexToNat p2 = some a2)
    (hv3 : hexToNat d1 = some b1) (hv4 : hexToNat d2 = some b2) :
    pairDistance s1 s2
      = .ok (((hammingBits64 a1 a2 : ℚ) + (hammingBits64 b1 b2 : ℚ)) / 2) := by
  unfold pairDistance
  rw [hc, hs1, hs2]
  simp only [List.getElem?_cons_zero, List.getElem?_cons_succ, if_true,
    calculate_hash_distance, hv1, hv2, hv3, hv4]
  rw [popcount_xor_eq_hammingBits64 a1 a2 (hexToNat_lt_of_length p1 a1 hv1 hl1)
      (hexToNat_lt_of_length p2 a2 hv2 hl2)]
  rw [popcount_xor_eq_hammingBits64 b1 b2 (hexToNat_lt_of_length d1 b1 hv3 hl3)
      (hexToNat_lt_of_length d2 b2 hv4 hl4)]

/-- Witness for C6 at concrete combined hashes: distance
`(Hamming(0,1) + Hamming(0,3)) / 2 = 3/2`. -/
theorem combined_distance_is_mean_of_hamming_witness :
    pairDistance "0000000000000000_0000000000000000" "0000000000000001_0000000000000003"
      = .ok (((hammingBits64 0 1 : ℚ) + (hammingBits64 0 3 : ℚ)) / 2) :=
  combined_distance_is_mean_of_hamming _ _
    "0000000000000000" "0000000000000000" "0000000000000001" "0000000000000003"
    0 0 1 3 (by decide) (by decide) (by decide) (by decide) (by decide)
    (by decide) (by decide) (by decide) (by decide) (by decide) (by decide)

/-! ## Radius selection (find_optimal_eps_with_elbow, lines 153-206) -/

/-- Python `range(a, b)`. -/
def pyRange (a b : ℕ) : List ℕ := (List.range (b - a)).map (· + a)

/-- The index pairs `(i, j)` with `i < j < n`, in the order of the nested
loops `for i in range(n): for j in range(i + 1, n)` used to fill the
symmetric distance matrices. -/
def upperPairs (n : ℕ) : List (ℕ × ℕ) :=
  ((List.range n).map (fun i => (pyRange (i + 1) n).map (fun j => (i, j)))).flatten

/-- The matrix-filling loop (lines 172-177 and 253-258): the `idx`-th entry
of the flat distance list is read for the `idx`-th pair; reading past the
end of the list is Python's `IndexError` (`none`).  Returns the list of
`((i, j), value)` assignments made to the symmetric matrix. -/
def fillGo (ds : List ℚ) : List (ℕ × ℕ) → ℕ → Option (List ((ℕ × ℕ) × ℚ))
  | [], _ => some []
  | p :: ps, idx =>
    match ds[idx]? with
    | none => none
    | some q =>
      match fillGo ds ps (idx + 1) with
      | none => none
      | some rest => some ((p, q) :: rest)

/-- `find_optimal_eps_with_elbow` (lines 153-206).  The argument is the flat
list of pairwise distances built by `cluster_similar_images`.  With fewer
than 4 values the fixed fallback `0.5` is returned.  Otherwise the code
builds an `n × n` matrix with `n = len(distances)` and fills it with
`distances[idx]` for every upper-triangle pair; the subsequent
NearestNeighbors / KneeLocator / percentile / median work (lines 179-206,
external sklearn and kneed libraries) is abstracted as the collaborator
`elbow`, which receives `k = min(4, len(distances) - 1)` and the filled
matrix. -/
def find_optimal_eps_with_elbow (elbow : ℕ → List ((ℕ × ℕ) × ℚ) → ℚ)
    (distances : List ℚ) : Except String ℚ :=
  if distances.length < 4 then .ok (1 / 2)
  else
    let k := min 4 (distances.length - 1)
    match fillGo distances (upperPairs distances.length) 0 with
    | none => .error "IndexError"
    | some m => .ok (elbow k m)

theorem fillGo_isSome_of_le (ds : List ℚ) :
    ∀ ps idx, idx + ps.length ≤ ds.length → (fillGo ds ps idx).isSome := by
  intro ps
  induction ps with
  | nil => intro idx _; simp [fillGo]
  | cons p ps ih =>
    intro idx h
    have hlt : idx < ds.length := by simp [List.length_cons] at h; omega
    unfold fillGo
    rw [List.getElem?_eq_getElem hlt]
    have hrec := ih (idx + 1) (by simp [List.length_cons] at h ⊢; omega)
    rcases hfg : fillGo ds ps (idx + 1) with _ | rest
    · rw [hfg] at hrec; exact absurd hrec (by simp)
    · simp

theorem fillGo_eq_none_of_lt (ds : List ℚ) :
    ∀ ps idx, ps ≠ [] → ds.length < idx + ps.length → fillGo ds ps idx = none := by
  intro ps
  induction ps with
  | nil => intro idx h _; exact absurd rfl h
  | cons p ps ih =>
    intro idx _ h
    unfold fillGo
    rcases hq : ds[idx]? with _ | q
    · rfl
    · have hlt : idx < ds.length := by
        by_contra hcon
        rw [List.getElem?_eq_none (by omega)] at hq
        exact absurd hq (by simp)
      have hne : ps ≠ [] := by
        rcases ps with _ | _
        · simp [List.length_cons] at h; omega
        · simp
      rw [ih (idx + 1) hne (by simp [List.length_cons] at h ⊢; omega)]

theorem sum_map_add_one (l : List ℕ) (f : ℕ → ℕ) :
    (l.map (fun x => f x + 1)).sum = (l.map f).sum + l.length := by
  induction l with
  | nil => simp
  | cons a l ih => simp [ih]; omega

theorem upperPairs_length_eq (n : ℕ) :
    (upperPairs n).length = ((List.range n).map (fun i => n - (i + 1))).sum := by
  unfold upperPairs
  rw [List.length_flatten, List.map_map]
  congr 1
  apply List.map_congr_left
  intro i _
  simp [Function.comp, pyRange]

theorem sum_range_sub_two (n : ℕ) :
    (((List.range n).map (fun i => n - (i + 1))).sum) * 2 = n * (n - 1) := by
  induction n with
  | zero => simp
  | succ n ih =>
    rw [List.range_succ, List.map_append, List.sum_append]
    have hmc : (List.range n).map (fun i => (n + 1) - (i + 1))
        = (List.range n).map (fun i => (n - (i + 1)) + 1) := by
      apply List.map_congr_left
      intro i hi
      have := List.mem_range.mp hi
      omega
    rw [hmc, sum_map_add_one, List.length_range]
    simp only [List.map_cons, List.map_nil, List.sum_cons, List.sum_nil,
      Nat.sub_self, Nat.add_zero]
    have hgoal : (n + 1) * ((n + 1) - 1) = n * (n - 1) + 2 * n := by
      cases n with
      | zero => rfl
      | succ m => simp only [Nat.add_sub_cancel, Nat.succ_sub_one]; ring
    rw [hgoal, ← ih]
    ring

theorem upperPairs_length (n : ℕ) : (upperPairs n).length * 2 = n * (n - 1) := by
  rw [upperPairs_length_eq]
  exact sum_range_sub_two n

/-- C2: for the flat pairwise-distance list of length `< 4` the radius
selection returns the fixed fallback `0.5`; for any list of length `≥ 4`
(every session of 4 or more images produces one, of length
`n*(n-1)/2 ≥ 6`) the matrix-filling loop reads past the end of the list
and raises `IndexError`, so no k-distance curve, elbow, percentile or
median is ever computed. -/
theorem find_optimal_eps_fallback_and_fault (elbow : ℕ → List ((ℕ × ℕ) × ℚ) → ℚ)
    (ds : List ℚ) :
    (ds.length < 4 → find_optimal_eps_with_elbow elbow ds = .ok (1 / 2)) ∧
    (4 ≤ ds.length → find_optimal_eps_with_elbow elbow ds = .error "IndexError") := by
  constructor
  · intro h
    unfold find_optimal_eps_with_elbow
    rw [if_pos h]
  · intro h
    unfold find_optimal_eps_with_elbow
    rw [if_neg (by omega)]
    have hpairs : ds.length < (upperPairs ds.length).length := by
      have h2 := upperPairs_length ds.length
      have h3 : ds.length * 3 ≤ ds.length * (ds.length - 1) :=
        Nat.mul_le_mul_left ds.length (by omega)
      omega
    have hne : upperPairs ds.length ≠ [] := by
      intro hcon
      rw [hcon] at hpairs
      simp at hpairs
    rw [fillGo_eq_none_of_lt ds (upperPairs ds.length) 0 hne (by omega)]

/-- Witness for C2: three pairwise distances (a 3-image session) fall back
to `0.5`; six pairwise distances (a 4-image session) raise `IndexError`. -/
theorem find_optimal_eps_fallback_and_fault_witness :
    find_optimal_eps_with_elbow (fun _ _ => 0) [0, 0, 0] = .ok (1 / 2) ∧
    find_optimal_eps_with_elbow (fun _ _ => 0) [0, 0, 0, 0, 0, 0]
      = .error "IndexError" :=
  ⟨(find_optimal_eps_fallback_and_fault (fun _ _ => 0) [0, 0, 0]).1 (by decide),
   (find_optimal_eps_fallback_and_fault (fun _ _ => 0) [0, 0, 0, 0, 0, 0]).2 (by decide)⟩

/-! ## DBSCAN and result shaping (cluster_similar_images, lines 208-279) -/

/-- Pointwise update of a labelling. -/
def setLabel (labels : ℕ → Option ℤ) (i : ℕ) (v : ℤ) : ℕ → Option ℤ :=
  fun j => if j = i then some v else labels j

/-- eps-neighbourhood of point `i`: all points at distance `≤ eps`
(sklearn radius semantics; the point itself is included whenever
`D i i = 0 ≤ eps`). -/
def neighborsOf (n : ℕ) (D : ℕ → ℕ → ℚ) (eps : ℚ) (i : ℕ) : List ℕ :=
  (List.range n).filter (fun j => D i j ≤ eps)

/-- Cluster expansion of DBSCAN (the sklearn collaborator, modelled by the
textbook algorithm): process the seed queue, attaching unvisited and
noise-labelled points to cluster `c` and expanding through core points.
`fuel` bounds the queue processing and is chosen large enough for every
actual run. -/
def dbscanExpand (n : ℕ) (D : ℕ → ℕ → ℚ) (eps : ℚ) (minSamples : ℕ) (c : ℤ) :
    ℕ → List ℕ → (ℕ → Option ℤ) → (ℕ → Option ℤ)
  | 0, _, labels => labels
  | _ + 1, [], labels => labels
  | fuel + 1, q :: rest, labels =>
    match labels q with
    | some l =>
      if l = -1 then dbscanExpand n D eps minSamples c fuel rest (setLabel labels q c)
      else dbscanExpand n D eps minSamples c fuel rest labels
    | none =>
      if minSamples ≤ (neighborsOf n D eps q).length then
        dbscanExpand n D eps minSamples c fuel (rest ++ neighborsOf n D eps q)
          (setLabel labels q c)
      else dbscanExpand n D eps minSamples c fuel rest (setLabel labels q c)

/-- Outer DBSCAN loop over the points in index order: a yet-unlabelled
non-core point becomes noise (`-1`), a yet-unlabelled core point starts
cluster `c` and expands it. -/
def dbscanGo (n : ℕ) (D : ℕ → ℕ → ℚ) (eps : ℚ) (minSamples : ℕ) :
    List ℕ → ℤ → (ℕ → Option ℤ) → (ℕ → Option ℤ)
  | [], _, labels => labels
  | p :: ps, c, labels =>
    match labels p with
    | some _ => dbscanGo n D eps minSamples ps c labels
    | none =>
      if minSamples ≤ (neighborsOf n D eps p).length then
        dbscanGo n D eps minSamples ps (c + 1)
          (dbscanExpand n D eps minSamples c ((n + 1) * (n + 1))
            (neighborsOf n D eps p) (setLabel labels p c))
      else dbscanGo n D eps minSamples ps c (setLabel labels p (-1))

/-- `DBSCAN(eps=…, min_samples=…, metric='precomputed').fit_predict` on an
`n`-point precomputed matrix: the label of each point, `-1` for noise. -/
def fit_predict (n : ℕ) (D : ℕ → ℕ → ℚ) (eps : ℚ) (minSamples : ℕ) : List ℤ :=
  (List.range n).map (fun i =>
    (dbscanGo n D eps minSamples (List.range n) 0 (fun _ => none) i).getD (-1))

theorem fit_predict_length (n : ℕ) (D : ℕ → ℕ → ℚ) (eps : ℚ) (minSamples : ℕ) :
    (fit_predict n D eps minSamples).length = n := by
  simp [fit_predict]

/-- Append `idx` to the group keyed by cluster label `label`, creating the
group at the end if absent (Python dict update in lines 273-276). -/
def addToGroup : List ((ℕ ⊕ ℤ) × List ℕ) → ℤ → ℕ → List ((ℕ ⊕ ℤ) × List ℕ)
  | [], label, idx => [(Sum.inr label, [idx])]
  | e :: rest, label, idx =>
    if e.1 = Sum.inr label then (e.1, e.2 ++ [idx]) :: rest
    else e :: addToGroup rest label idx

/-- One step of the grouping loop (lines 270-276): a noise point (label
`-1`) becomes its own singleton group under the string key
`"single_<idx>"` (modelled by the left injection); any other label joins
that cluster's group. -/
def groupStep (acc : List ((ℕ ⊕ ℤ) × List ℕ)) (idx : ℕ) (label : ℤ) :
    List ((ℕ ⊕ ℤ) × List ℕ) :=
  if label = -1 then acc ++ [(Sum.inl idx, [idx])] else addToGroup acc label idx

def groupFold : List ℤ → ℕ → List ((ℕ ⊕ ℤ) × List ℕ) → List ((ℕ ⊕ ℤ) × List ℕ)
  | [], _, acc => acc
  | lab :: rest, idx, acc => groupFold rest (idx + 1) (groupStep acc idx lab)

/-- Lines 268-279: group the point indices by DBSCAN label, each noise
point becoming its own cluster, and return `list(clusters.values())` in
dict insertion order. -/
def groupPoints (labels : List ℤ) : List (List ℕ) :=
  (groupFold labels 0 []).map Prod.snd

theorem addToGroup_flatten (lab : ℤ) (idx : ℕ) :
    ∀ acc : List ((ℕ ⊕ ℤ) × List ℕ),
      ((addToGroup acc lab idx).map Prod.snd).flatten.Perm
        ((acc.map Prod.snd).flatten ++ [idx]) := by
  intro acc
  induction acc with
  | nil => simp [addToGroup]
  | cons e rest ih =>
    unfold addToGroup
    by_cases he : e.1 = Sum.inr lab
    · rw [if_pos he]
      simp only [List.map_cons, List.flatten_cons, List.append_assoc]
      exact List.Perm.append_left e.2 List.perm_append_comm
    · rw [if_neg he]
      simp only [List.map_cons, List.flatten_cons, List.append_assoc]
      exact List.Perm.append_left e.2 ih

theorem groupStep_flatten (acc : List ((ℕ ⊕ ℤ) × List ℕ)) (idx : ℕ) (lab : ℤ) :
    ((groupStep acc idx lab).map Prod.snd).flatten.Perm
      ((acc.map Prod.snd).flatten ++ [idx]) := by
  unfold groupStep
  by_cases hlab : lab = -1
  · rw [if_pos hlab]
    simp
  · rw [if_neg hlab]
    exact addToGroup_flatten lab idx acc

theorem groupFold_flatten :
    ∀ (labels : List ℤ) (idx : ℕ) (acc : List ((ℕ ⊕ ℤ) × List ℕ)),
      ((groupFold labels idx acc).map Prod.snd).flatten.Perm
        ((acc.map Prod.snd).flatten ++ List.range' idx labels.length) := by
  intro labels
  induction labels with
  | nil => intro idx acc; simp [groupFold]
  | cons lab rest ih =>
    intro idx acc
    unfold groupFold
    have h1 := ih (idx + 1) (groupStep acc idx lab)
    have h2 := (groupStep_flatten acc idx lab).append_right (List.range' (idx + 1) rest.length)
    have h3 := h1.trans h2
    simp only [List.length_cons, List.range'_succ]
    rw [← List.singleton_append, ← List.append_assoc]
    exact h3

/-- The groups returned by the label-grouping loop cover each point index
exactly once. -/
theorem groupPoints_flatten_perm (labels : List ℤ) :
    (groupPoints labels).flatten.Perm (List.range labels.length) := by
  have h := groupFold_flatten labels 0 []
  simp only [List.map_nil, List.flatten_nil, List.nil_append] at h
  rw [groupPoints, List.range_eq_range']
  exact h

theorem addToGroup_ne_nil (lab : ℤ) (idx : ℕ) :
    ∀ acc : List ((ℕ ⊕ ℤ) × List ℕ),
      (∀ g ∈ acc.map Prod.snd, g ≠ []) →
      ∀ g ∈ (addToGroup acc lab idx).map Prod.snd, g ≠ [] := by
  intro acc
  induction acc with
  | nil =>
    intro _ g hg
    simp [addToGroup] at hg
    simp [hg]
  | cons e rest ih =>
    intro hacc g hg
    unfold addToGroup at hg
    by_cases he : e.1 = Sum.inr lab
    · rw [if_pos he] at hg
      simp only [List.map_cons, List.mem_cons] at hg
      rcases hg with hg | hg
      · subst hg; simp
      · exact hacc g (by simp [hg])
    · rw [if_neg he] at hg
      simp only [List.map_cons, List.mem_cons] at hg
      rcases hg with hg | hg
      · exact hacc g (by simp [hg])
      · exact ih (fun g' hg' => hacc g' (by simp [hg'])) g hg

theorem groupStep_ne_nil (acc : List ((ℕ ⊕ ℤ) × List ℕ)) (idx : ℕ) (lab : ℤ)
    (hacc : ∀ g ∈ acc.map Prod.snd, g ≠ []) :
    ∀ g ∈ (groupStep acc idx lab).map Prod.snd, g ≠ [] := by
  unfold groupStep
  by_cases hlab : lab = -1
  · rw [if_pos hlab]
    intro g hg
    simp only [List.map_append, List.mem_append, List.map_cons, List.map_nil,
      List.mem_cons] at hg
    rcases hg with hg | hg
    · exact hacc g hg
    · rcases hg with hg | hg
      · simp [hg]
      · exact absurd hg (by simp)
  · rw [if_neg hlab]
    exact addToGroup_ne_nil lab idx acc hacc

theorem groupFold_ne_nil :
    ∀ (labels : List ℤ) (idx : ℕ) (acc : List ((ℕ ⊕ ℤ) × List ℕ)),
      (∀ g ∈ acc.map Prod.snd, g ≠ []) →
      ∀ g ∈ (groupFold labels idx acc).map Prod.snd, g ≠ [] := by
  intro labels
  induction labels with
  | nil => intro idx acc hacc; exact hacc
  | cons lab rest ih =>
    intro idx acc hacc
    unfold groupFold
    exact ih (idx + 1) (groupStep acc idx lab) (groupStep_ne_nil acc idx lab hacc)

theorem groupPoints_ne_nil (labels : List ℤ) :
    ∀ g ∈ groupPoints labels, g ≠ [] := by
  unfold groupPoints
  exact groupFold_ne_nil labels 0 [] (by simp)

/-- The explicit element-by-element loop behind the list traversals below:
first failure (Python exception) aborts. -/
def exceptMapM {α β : Type} (f : α → Except String β) : List α → Except String (List β)
  | [] => .ok []
  | a :: as =>
    match f a with
    | .error s => .error s
    | .ok b =>
      match exceptMapM f as with
      | .error s => .error s
      | .ok bs => .ok (b :: bs)

/-- Look up `hash_list[i]` and `hash_list[j]` and take their pair distance. -/
def distAt (hl : List String) (p : ℕ × ℕ) : Except String ℚ :=
  match hl[p.1]?, hl[p.2]? with
  | some h1, some h2 => pairDistance h1 h2
  | _, _ => .error "IndexError"

/-- Lines 224-241: the flat list of pairwise distances of `hash_list`, in
the `for i: for j in range(i+1, n)` loop order. -/
def computeDistances (hl : List String) : Except String (List ℚ) :=
  exceptMapM (distAt hl) (upperPairs hl.length)

/-- The symmetric matrix built from the fill assignments (lines 248-258):
`np.zeros` makes unassigned entries (the diagonal) `0`; each upper pair is
assigned to both `(i, j)` and `(j, i)`. -/
def lookupD (as : List ((ℕ × ℕ) × ℚ)) (i j : ℕ) : ℚ :=
  match as.find? (fun a => a.1 == (i, j) || a.1 == (j, i)) with
  | some a => a.2
  | none => 0

/-- `cluster_similar_images` (src/services/image_processing.py lines
208-279): fewer than 2 hashes short-circuit to singleton groups; otherwise
compute the pairwise distances, pick `eps` with
`find_optimal_eps_with_elbow`, build the symmetric matrix, run DBSCAN with
`min_samples=2` on the precomputed metric, and group the indices by label
with noise points as their own singleton clusters.  (The
`use_combined`/`working_hashes` assignment of lines 215-221 binds
`working_hashes = hash_list` in both branches and is dropped.) -/
def cluster_similar_images (elbow : ℕ → List ((ℕ × ℕ) × ℚ) → ℚ)
    (hash_list : List String) : Except String (List (List ℕ)) :=
  if hash_list.length < 2 then
    .ok ((List.range hash_list.length).map (fun i => [i]))
  else
    match computeDistances hash_list with
    | .error s => .error s
    | .ok distances =>
      match find_optimal_eps_with_elbow elbow distances with
      | .error s => .error s
      | .ok eps =>
        match fillGo distances (upperPairs hash_list.length) 0 with
        | none => .error "IndexError"
        | some assignments =>
          .ok (groupPoints
            (fit_predict hash_list.length (lookupD assignments) eps 2))

theorem exceptMapM_ok {α β : Type} (f : α → Except String β) :
    ∀ l : List α, (∀ a ∈ l, ∃ b, f a = .ok b) →
      ∃ bs, exceptMapM f l = .ok bs ∧ bs.length = l.length := by
  intro l
  induction l with
  | nil => intro _; exact ⟨[], rfl, rfl⟩
  | cons a as ih =>
    intro h
    obtain ⟨b, hb⟩ := h a (by simp)
    obtain ⟨bs, hbs, hlen⟩ := ih (fun x hx => h x (by simp [hx]))
    refine ⟨b :: bs, ?_, by simp [hlen]⟩
    unfold exceptMapM
    rw [hb, hbs]

theorem upperPairs_mem_lt (n : ℕ) :
    ∀ p ∈ upperPairs n, p.1 < n ∧ p.2 < n := by
  intro p hp
  unfold upperPairs at hp
  rw [List.mem_flatten] at hp
  obtain ⟨row, hrow, hprow⟩ := hp
  rw [List.mem_map] at hrow
  obtain ⟨i, hi, hrow'⟩ := hrow
  subst hrow'
  rw [List.mem_map] at hprow
  obtain ⟨j, hj, hp'⟩ := hprow
  subst hp'
  have hin : i < n := List.mem_range.mp hi
  unfold pyRange at hj
  rw [List.mem_map] at hj
  obtain ⟨d, hd, hj'⟩ := hj
  have hdn := List.mem_range.mp hd
  subst hj'
  constructor
  · exact hin
  · omega

theorem flatten_map_singleton {α : Type} (l : List α) :
    (l.map (fun x => [x])).flatten = l := by
  induction l with
  | nil => rfl
  | cons a l ih => simp [ih]

/-- C9 (amended): whenever `cluster_similar_images` returns — that is, for
at most 3 hashes, where the pairwise-distance list has fewer than 4
entries and the radius-selection fault of lines 167-177 is not reached —
the returned groups are a partition of `{0..n-1}`: the concatenation of
the groups is a permutation of `[0, …, n-1]` (each index in exactly one
group) and no group is empty.  For 4 or more hashes the call raises
instead of returning (see the companion counterexample). -/
theorem cluster_similar_images_partition (elbow : ℕ → List ((ℕ × ℕ) × ℚ) → ℚ)
    (hl : List String) (hlen : hl.length ≤ 3)
    (hparse : ∀ h1 ∈ hl, ∀ h2 ∈ hl, ∃ q, pairDistance h1 h2 = .ok q) :
    ∃ gs, cluster_similar_images elbow hl = .ok gs ∧
      gs.flatten.Perm (List.range hl.length) ∧ ∀ g ∈ gs, g ≠ [] := by
  by_cases hsmall : hl.length < 2
  · refine ⟨(List.range hl.length).map (fun i => [i]), ?_, ?_, ?_⟩
    · unfold cluster_similar_images
      rw [if_pos hsmall]
    · rw [flatten_map_singleton]
    · intro g hg
      rw [List.mem_map] at hg
      obtain ⟨i, _, hg'⟩ := hg
      subst hg'
      simp
  · have hdists : ∀ p ∈ upperPairs hl.length, ∃ q, distAt hl p = .ok q := by
      intro p hp
      obtain ⟨h1lt, h2lt⟩ := upperPairs_mem_lt hl.length p hp
      obtain ⟨q, hq⟩ := hparse (hl.get ⟨p.1, h1lt⟩) (List.get_mem hl p.1 h1lt)
        (hl.get ⟨p.2, h2lt⟩) (List.get_mem hl p.2 h2lt)
      refine ⟨q, ?_⟩
      unfold distAt
      rw [List.getElem?_eq_getElem h1lt, List.getElem?_eq_getElem h2lt]
      simpa [List.get_eq_getElem] using hq
    obtain ⟨ds, hds, hdslen⟩ := exceptMapM_ok (distAt hl) (upperPairs hl.length) hdists
    have hpairslen : ds.length < 4 := by
      have h2 := upperPairs_length hl.length
      have ha : hl.length = 2 ∨ hl.length = 3 := by omega
      rcases ha with ha | ha <;> rw [ha] at h2 hdslen <;> omega
    have heps : find_optimal_eps_with_elbow elbow ds = .ok (1 / 2) := by
      unfold find_optimal_eps_with_elbow
      rw [if_pos hpairslen]
    have hfill : (fillGo ds (upperPairs hl.length) 0).isSome :=
      fillGo_isSome_of_le ds (upperPairs hl.length) 0 (by omega)
    rcases hfg : fillGo ds (upperPairs hl.length) 0 with _ | assignments
    · rw [hfg] at hfill; exact absurd hfill (by simp)
    · refine ⟨groupPoints (fit_predict hl.length (lookupD assignments) (1 / 2) 2),
        ?_, ?_, ?_⟩
      · unfold cluster_similar_images computeDistances
        rw [if_neg hsmall, hds]
        simp only [heps, hfg]
      · have := groupPoints_flatten_perm
          (fit_predict hl.length (lookupD assignments) (1 / 2) 2)
        rwa [fit_predict_length] at this
      · exact groupPoints_ne_nil _

/-- Witness for (amended) C9 at two concrete plain hashes: a defined
partition of `{0, 1}` is returned. -/
theorem cluster_similar_images_partition_witness :
    ∃ gs, cluster_similar_images (fun _ _ => 0)
        ["0000000000000000", "00000000000000ff"] = .ok gs ∧
      gs.flatten.Perm (List.range 2) ∧ ∀ g ∈ gs, g ≠ [] := by
  have h := cluster_similar_images_partition (fun _ _ => 0)
    ["0000000000000000", "00000000000000ff"] (by decide)
    (by
      intro h1 hm1 h2 hm2
      fin_cases hm1 <;> fin_cases hm2 <;> exact ⟨_, rfl⟩)
  simpa using h

/-- C9 is false as stated: at 4 hash strings `cluster_similar_images`
raises `IndexError` (through the radius selection) instead of returning a
partition of `{0..3}`. -/
theorem cluster_similar_images_counterexample :
    cluster_similar_images (fun _ _ => 0)
      ["0000000000000000", "0000000000000001",
       "0000000000000002", "0000000000000003"] = .error "IndexError" := by
  rfl

/-! ## The clustering task (src/tasks/image_tasks.py, cluster_images_task,
lines 155-245) -/

/-- The fields of an `ImageModel` (src/models/database.py) consumed by the
clustering task. -/
structure ImageRec where
  image_id : String
  hash_value : String
  quality_score : ℚ
deriving DecidableEq

/-- The keys of `hash_to_image = {img.hash_value: img for img in images}`
(line 178), i.e. `hash_list` (line 179): Python dict keys in
first-occurrence order — images with equal `hash_value` collapse to a
single key. -/
def dedupKeys (images : List ImageRec) : List String :=
  images.foldl
    (fun acc img => if img.hash_value ∈ acc then acc else acc ++ [img.hash_value]) []

/-- Python `max(cluster_images, key=lambda x: x.quality_score)` (line 196):
the first element attaining the maximal key; `ValueError` (`none`) on an
empty list. -/
def pyMaxByQuality (l : List ImageRec) : Option ImageRec :=
  l.foldl
    (fun acc img =>
      match acc with
      | none => some img
      | some b => if img.quality_score > b.quality_score then some img else some b)
    none

/-- The catalog cluster row written by `db_manager.save_cluster`
(lines 216-223). -/
structure ClusterRecord where
  members : List String
  best_image_id : String
deriving DecidableEq

/-- The observable effect of one `cluster_images_task` run: the final
session status, the cluster rows written, the image ids whose
`delete_recommended` was set to `True`, and the `clusters` counter stored
on the session. -/
structure ClusterTaskResult where
  status : String
  clustersCreated : List ClusterRecord
  flaggedForDeletion : List String
  clustersCount : ℕ
deriving DecidableEq

/-- Lines 189-223, one iteration of the per-cluster loop: groups of a
single index are skipped (`none`); otherwise `cluster_images =
[images[idx] for idx in cluster_indices]` is read from the SESSION image
list (indices refer to positions in the deduplicated hash list), the best
image is the `max` by quality score, and every other member is flagged for
deletion. -/
def processCluster (images : List ImageRec) (cluster_indices : List ℕ) :
    Except String (Option (ClusterRecord × List String)) :=
  if 1 < cluster_indices.length then
    match exceptMapM (fun idx =>
        match images[idx]? with
        | some img => Except.ok img
        | none => Except.error "IndexError") cluster_indices with
    | .error s => .error s
    | .ok cluster_images =>
      match pyMaxByQuality cluster_images with
      | none => .error "ValueError"
      | some best =>
        .ok (some
          ( ⟨cluster_images.map (fun i => i.image_id), best.image_id⟩
          , (cluster_images.filter
                (fun i => i.image_id != best.image_id)).map (fun i => i.image_id) ))
  else .ok none

/-- The fallible body of `perform_clustering` after the `n < 2` check. -/
def clusterStage (elbow : ℕ → List ((ℕ × ℕ) × ℚ) → ℚ) (images : List ImageRec) :
    Except String (List (ClusterRecord × List String)) :=
  match cluster_similar_images elbow (dedupKeys images) with
  | .error s => .error s
  | .ok clusters =>
    match exceptMapM (processCluster images) clusters with
    | .error s => .error s
    | .ok processed => .ok (processed.filterMap id)

/-- `cluster_images_task` (lines 155-245), its catalog effects collected
into a result record: with fewer than 2 session images the task sets the
session `completed` and returns (no cluster); otherwise it deduplicates
the hashes through the `hash_to_image` dict, clusters them, writes one
cluster row per group of more than one index, flags that group's non-best
members, and sets the session `completed` with the cluster count; any
exception is caught (lines 233-235) and sets the session `failed`. -/
def cluster_images_task (elbow : ℕ → List ((ℕ × ℕ) × ℚ) → ℚ)
    (images : List ImageRec) : ClusterTaskResult :=
  if images.length < 2 then ⟨"completed", [], [], 0⟩
  else
    match clusterStage elbow images with
    | .error _ => ⟨"failed", [], [], 0⟩
    | .ok recs =>
      ⟨"completed", recs.map Prod.fst, (recs.map Prod.snd).flatten, recs.length⟩

theorem dedupKeys_go_fixed :
    ∀ (l : List ImageRec) (acc : List String),
      (∀ img ∈ l, img.hash_value ∈ acc) →
      l.foldl (fun acc img =>
        if img.hash_value ∈ acc then acc else acc ++ [img.hash_value]) acc = acc := by
  intro l
  induction l with
  | nil => intro acc _; rfl
  | cons i rest ih =>
    intro acc h
    simp only [List.foldl_cons, if_pos (h i (by simp))]
    exact ih acc (fun img hm => h img (by simp [hm]))

theorem dedupKeys_all_eq (h : String) (images : List ImageRec)
    (hne : images ≠ []) (hall : ∀ img ∈ images, img.hash_value = h) :
    dedupKeys images = [h] := by
  rcases images with _ | ⟨i0, rest⟩
  · exact absurd rfl hne
  · unfold dedupKeys
    simp only [List.foldl_cons, List.not_mem_nil, if_neg, List.nil_append]
    have hi0 : i0.hash_value = h := hall i0 (by simp)
    rw [hi0]
    exact dedupKeys_go_fixed rest [h]
      (fun img hm => by rw [hall img (by simp [hm])]; simp)

/-- C1 evaluated on the code: for every session of `n ≥ 2` images whose
(identical bytes give) identical hash records, `cluster_images_task`
creates NO cluster, flags nothing, and completes with `clusters = 0` —
the dict `hash_to_image` collapses the identical hash values to one key,
`cluster_similar_images` sees a single hash and returns one singleton
group, and singleton groups are skipped.  (The claim expects exactly one
cluster of size `n`.) -/
theorem identical_images_yield_no_cluster (elbow : ℕ → List ((ℕ × ℕ) × ℚ) → ℚ)
    (images : List ImageRec) (h : String) (h2 : 2 ≤ images.length)
    (hall : ∀ img ∈ images, img.hash_value = h) :
    cluster_images_task elbow images = ⟨"completed", [], [], 0⟩ := by
  unfold cluster_images_task
  rw [if_neg (by omega)]
  have hdk : dedupKeys images = [h] :=
    dedupKeys_all_eq h images (by rintro rfl; simp at h2) hall
  unfold clusterStage
  rw [hdk]
  have hcs : cluster_similar_images elbow [h] = .ok [[0]] := by
    unfold cluster_similar_images
    rw [if_pos (by simp)]
    rfl
  rw [hcs]
  have hpc : processCluster images [0] = .ok none := by
    unfold processCluster
    rw [if_neg (by simp)]
  simp only [exceptMapM, hpc]
  rfl

/-- Witness for C1's evaluation: two byte-identical images (same combined
hash record, same quality) produce zero clusters and a `completed`
session. -/
theorem identical_images_yield_no_cluster_witness :
    cluster_images_task (fun _ _ => 0)
      [⟨"img-a", "8f3ce5a1b2d40976_a1b2c3d4e5f60718", 1/2⟩,
       ⟨"img-b", "8f3ce5a1b2d40976_a1b2c3d4e5f60718", 1/2⟩]
      = ⟨"completed", [], [], 0⟩ :=
  identical_images_yield_no_cluster (fun _ _ => 0) _
    "8f3ce5a1b2d40976_a1b2c3d4e5f60718" (by decide)
    (by intro img hm; fin_cases hm <;> rfl)

/-- C7 (amended): a session whose STORED image list has fewer than 2
rows — the condition `len(images) < 2` the code actually checks — skips
clustering entirely: no cluster row is written and the session goes
straight to `completed`; and on a single hash `cluster_similar_images`
returns exactly the one singleton group `[[0]]` (so zero groups of
size ≥ 2).  Conditioning on the PROCESSED images instead is refuted by
the companion counterexample: with 2 stored rows of which only 1 was
processed, the stage faults and sets the session `failed`. -/
theorem small_session_completes_without_clusters
    (elbow : ℕ → List ((ℕ × ℕ) × ℚ) → ℚ) :
    (∀ images : List ImageRec, images.length < 2 →
      cluster_images_task elbow images = ⟨"completed", [], [], 0⟩) ∧
    (∀ h : String, cluster_similar_images elbow [h] = .ok [[0]]) := by
  constructor
  · intro images hlen
    unfold cluster_images_task
    rw [if_pos hlen]
  · intro h
    unfold cluster_similar_images
    rw [if_pos (by simp)]
    rfl

/-- Witness for C7 at a one-image session and a concrete hash. -/
theorem small_session_completes_without_clusters_witness :
    cluster_images_task (fun _ _ => 0) [⟨"only", "8f3ce5a1b2d40976_a1b2c3d4e5f60718", 1⟩]
      = ⟨"completed", [], [], 0⟩ ∧
    cluster_similar_images (fun _ _ => 0) ["8f3ce5a1b2d40976_a1b2c3d4e5f60718"]
      = .ok [[0]] :=
  ⟨(small_session_completes_without_clusters (fun _ _ => 0)).1 _ (by decide),
   (small_session_completes_without_clusters (fun _ _ => 0)).2 _⟩

/-- C7 is false as stated: a session with FEWER THAN 2 PROCESSED images
need not complete.  With 2 stored rows of which only one was processed,
the unprocessed row still carries the empty `hash_value` written at
upload (src/main.py line 156), so the deduplicated hash list is
`["<phash>_<dhash>", ""]`; the pair-distance step splits `""` into a
one-element list, `hash2_parts[1]` raises `IndexError`, the task's
`except` sets the session to `failed` — not `completed`. -/
theorem partially_processed_session_fails_clustering :
    cluster_images_task (fun _ _ => 0)
      [⟨"img-ok", "8f3ce5a1b2d40976_a1b2c3d4e5f60718", 1/2⟩,
       ⟨"img-raw", "", 0⟩]
      = ⟨"failed", [], [], 0⟩ := by
  rfl

/-! ## Quality scoring and representative selection
(src/processing/quality.py; src/tasks/process_images.py lines 158-204) -/

/-- The per-image signals produced by `QualityAssessment`: `sharpness` and
`exposure` already normalised to `[0,1]` by `calculate_sharpness` and
`calculate_exposure_quality`, `face_count` and `face_score` from
`detect_faces`. -/
structure QMetrics where
  sharpness : ℚ
  exposure : ℚ
  face_count : ℕ
  face_score : ℚ
deriving DecidableEq

/-- Default weight `QUALITY_WEIGHTS_SHARPNESS` (src/config/settings.py). -/
def quality_weights_sharpness : ℚ := 0.4

/-- Default weight `QUALITY_WEIGHTS_EXPOSURE` (src/config/settings.py). -/
def quality_weights_exposure : ℚ := 0.3

/-- Default weight `QUALITY_WEIGHTS_FACES` (src/config/settings.py). -/
def quality_weights_faces : ℚ := 0.3

/-- The `overall_score` computed by `calculate_overall_quality`
(src/processing/quality.py lines 136-140). -/
def overall_score (m : QMetrics) : ℚ :=
  m.sharpness * quality_weights_sharpness + m.exposure * quality_weights_exposure
    + m.face_score * quality_weights_faces

/-- A cluster member as the representative selector sees it.  The
`upload_time` and `image_id` fields take part only in the SPEC's tie-break
chain; the code never reads them when ranking. -/
structure Member where
  image_id : String
  upload_time : ℕ
  metrics : QMetrics
deriving DecidableEq

/-- Stable descending insertion by score: an element passes over exactly
the strictly larger scores, so equal scores keep their input order — the
stability guarantee of Python `list.sort(key=…, reverse=True)` used by
`rank_images_by_quality` (src/processing/quality.py lines 160-171). -/
def insertDesc (x : Member × ℚ) : List (Member × ℚ) → List (Member × ℚ)
  | [] => [x]
  | y :: ys => if x.2 ≥ y.2 then x :: y :: ys else y :: insertDesc x ys

/-- `rank_images_by_quality`: pair every member with its overall score and
sort the pairs by score, descending and stable. -/
def rank_images_by_quality (ms : List Member) : List (Member × ℚ) :=
  (ms.map (fun m => (m, overall_score m.metrics))).foldr insertDesc []

/-- `find_best_image` (src/processing/quality.py lines 173-182): `None`
for an empty list, the sole element for a singleton, otherwise
`ranked[0][0]`. -/
def find_best_image : List Member → Option Member
  | [] => none
  | [m] => some m
  | ms => ((rank_images_by_quality ms).head?).map Prod.fst

/-- The flag writes of the per-cluster loop in `process_images_task`
(src/tasks/process_images.py lines 190-204), as
`(image_id, delete_recommended, is_best_in_cluster)` triples. -/
def markCluster (ms : List Member) : List (String × Bool × Bool) :=
  match find_best_image ms with
  | none => []
  | some best =>
    ms.map (fun m =>
      if m.image_id = best.image_id then (m.image_id, false, true)
      else (m.image_id, true, false))

/-- The SPEC's §4.6 selector, written from the spec's words for
comparison: `a` strictly precedes `b` when it has higher overall quality,
or — on equal quality — higher sharpness, then higher face count, then
earlier upload time, then lexicographically smaller image id. -/
def specPrefers (a b : Member) : Bool :=
  if overall_score a.metrics ≠ overall_score b.metrics then
    decide (overall_score b.metrics < overall_score a.metrics)
  else if a.metrics.sharpness ≠ b.metrics.sharpness then
    decide (b.metrics.sharpness < a.metrics.sharpness)
  else if a.metrics.face_count ≠ b.metrics.face_count then
    decide (b.metrics.face_count < a.metrics.face_count)
  else if a.upload_time ≠ b.upload_time then
    decide (a.upload_time < b.upload_time)
  else decide (a.image_id < b.image_id)

/-- The representative the SPEC's tie-break chain selects. -/
def specBest : List Member → Option Member
  | [] => none
  | m :: ms => some (ms.foldl (fun b x => if specPrefers x b then x else b) m)

/-- First element of a scored list attaining the maximal score. -/
def firstMaxScore : List (Member × ℚ) → Option (Member × ℚ)
  | [] => none
  | x :: xs =>
    match firstMaxScore xs with
    | none => some x
    | some y => if x.2 ≥ y.2 then some x else some y

theorem insertDesc_head (x : Member × ℚ) (s : List (Member × ℚ)) :
    (insertDesc x s).head? = some
      (match s.head? with
       | none => x
       | some y => if x.2 ≥ y.2 then x else y) := by
  cases s with
  | nil => rfl
  | cons y ys =>
    unfold insertDesc
    by_cases h : x.2 ≥ y.2
    · rw [if_pos h]; simp [h]
    · rw [if_neg h]; simp [h]

theorem foldr_insertDesc_head (l : List (Member × ℚ)) :
    (l.foldr insertDesc []).head? = firstMaxScore l := by
  induction l with
  | nil => rfl
  | cons x xs ih =>
    rw [List.foldr_cons, insertDesc_head, ih, firstMaxScore]
    rcases hfm : firstMaxScore xs with _ | y
    · rfl
    · by_cases h : x.2 ≥ y.2 <;> simp [h]

theorem firstMaxScore_cons_some (x : Member × ℚ) (xs : List (Member × ℚ)) :
    ∃ y, firstMaxScore (x :: xs) = some y := by
  rw [firstMaxScore]
  rcases hfm : firstMaxScore xs with _ | y
  · exact ⟨x, rfl⟩
  · by_cases h : x.2 ≥ y.2
    · exact ⟨x, by simp [h]⟩
    · exact ⟨y, by simp [h]⟩

theorem firstMaxScore_spec :
    ∀ (l : List (Member × ℚ)) (x : Member × ℚ), firstMaxScore l = some x →
      ∃ i, ∃ hi : i < l.length, l.get ⟨i, hi⟩ = x ∧ (∀ y ∈ l, y.2 ≤ x.2) ∧
        ∀ j, j < i → ∀ hj : j < l.length, (l.get ⟨j, hj⟩).2 < x.2 := by
  intro l
  induction l with
  | nil => intro x h; exact absurd h (by simp [firstMaxScore])
  | cons a as ih =>
    intro x h
    rw [firstMaxScore] at h
    rcases hfm : firstMaxScore as with _ | y
    · rw [hfm] at h
      have h2 : some a = some x := h
      injection h2 with h2
      subst h2
      have has : as = [] := by
        cases as with
        | nil => rfl
        | cons b bs =>
          rw [firstMaxScore] at hfm
          rcases hfb : firstMaxScore bs with _ | z
          · rw [hfb] at hfm
            have hcon : some b = none := hfm
            exact absurd hcon (by simp)
          · rw [hfb] at hfm
            have hcon : (if b.2 ≥ z.2 then some b else some z) = none := hfm
            by_cases hbz : b.2 ≥ z.2
            · rw [if_pos hbz] at hcon; exact absurd hcon (by simp)
            · rw [if_neg hbz] at hcon; exact absurd hcon (by simp)
      subst has
      refine ⟨0, by simp, rfl, ?_, by intro j hj _; omega⟩
      intro y hy
      simp at hy
      subst hy
      exact le_refl _
    · rw [hfm] at h
      have h2 : (if a.2 ≥ y.2 then some a else some y) = some x := h
      obtain ⟨i, hi, hget, hall, hpre⟩ := ih y hfm
      by_cases hxy : a.2 ≥ y.2
      · rw [if_pos hxy] at h2
        injection h2 with h2
        subst h2
        refine ⟨0, by simp, rfl, ?_, by intro j hj _; omega⟩
        intro z hz
        rcases List.mem_cons.mp hz with hz' | hz'
        · subst hz'; exact le_refl _
        · exact le_trans (hall z hz') hxy
      · rw [if_neg hxy] at h2
        injection h2 with h2
        subst h2
        push_neg at hxy
        refine ⟨i + 1, by simp [Nat.succ_lt_succ hi], hget, ?_, ?_⟩
        · intro z hz
          rcases List.mem_cons.mp hz with hz' | hz'
          · subst hz'; exact le_of_lt hxy
          · exact hall z hz'
        · intro j hj hjl
          cases j with
          | zero => exact hxy
          | succ k => exact hpre k (by omega) (by simp at hjl; omega)

theorem scored_firstMax_props (ms : List Member) (x : Member × ℚ)
    (hx : firstMaxScore (ms.map (fun m => (m, overall_score m.metrics))) = some x) :
    (∃ i, ∃ hi : i < ms.length, ms.get ⟨i, hi⟩ = x.1 ∧
      ∀ j, j < i → ∀ hj : j < ms.length,
        overall_score ((ms.get ⟨j, hj⟩).metrics) < overall_score x.1.metrics) ∧
    (∀ m ∈ ms, overall_score m.metrics ≤ overall_score x.1.metrics) := by
  obtain ⟨i, hi, hget, hall, hpre⟩ := firstMaxScore_spec _ x hx
  have hi' : i < ms.length := by simpa using hi
  have hgm : (ms.map (fun m => (m, overall_score m.metrics))).get ⟨i, hi⟩
      = (ms.get ⟨i, hi'⟩, overall_score ((ms.get ⟨i, hi'⟩).metrics)) := by
    simp [List.get_eq_getElem]
  rw [hgm] at hget
  subst hget
  constructor
  · refine ⟨i, hi', rfl, ?_⟩
    intro j hj hjl
    have hh := hpre j hj (by simpa using hjl)
    have hgj : (ms.map (fun m => (m, overall_score m.metrics))).get
          ⟨j, by simpa using hjl⟩
        = (ms.get ⟨j, hjl⟩, overall_score ((ms.get ⟨j, hjl⟩).metrics)) := by
      simp [List.get_eq_getElem]
    rw [hgj] at hh
    exact hh
  · intro m hm
    exact hall _ (List.mem_map_of_mem _ hm)

/-- C4 (amended): for every cluster of at least 2 members,
`find_best_image` selects the FIRST member in processing order attaining
the maximal `quality.overall` — input position is the only tie-break —
and the cluster loop of `process_images_task` writes
`delete_recommended=false, is_best_in_cluster=true` for that member's id
and `delete_recommended=true, is_best_in_cluster=false` for every member
with a different id. -/
theorem best_is_first_argmax_and_flags (ms : List Member) (h2 : 2 ≤ ms.length) :
    ∃ b, find_best_image ms = some b ∧
      (∃ i, ∃ hi : i < ms.length, ms.get ⟨i, hi⟩ = b ∧
        ∀ j, j < i → ∀ hj : j < ms.length,
          overall_score ((ms.get ⟨j, hj⟩).metrics) < overall_score b.metrics) ∧
      (∀ m ∈ ms, overall_score m.metrics ≤ overall_score b.metrics) ∧
      (b.image_id, false, true) ∈ markCluster ms ∧
      (∀ m ∈ ms, m.image_id ≠ b.image_id →
        (m.image_id, true, false) ∈ markCluster ms) ∧
      (∀ e ∈ markCluster ms, e.2.2 = true → e.1 = b.image_id) := by
  rcases ms with _ | ⟨a1, _ | ⟨a2, rest⟩⟩
  · simp at h2
  · simp at h2
  · obtain ⟨x, hx⟩ := firstMaxScore_cons_some (a1, overall_score a1.metrics)
      ((a2 :: rest).map (fun m => (m, overall_score m.metrics)))
    have hfmx : firstMaxScore
        ((a1 :: a2 :: rest).map (fun m => (m, overall_score m.metrics))) = some x := hx
    obtain ⟨hidx, hbound⟩ := scored_firstMax_props (a1 :: a2 :: rest) x hfmx
    have hfb : find_best_image (a1 :: a2 :: rest) = some x.1 := by
      have h1 : find_best_image (a1 :: a2 :: rest)
          = ((rank_images_by_quality (a1 :: a2 :: rest)).head?).map Prod.fst := rfl
      rw [h1]
      unfold rank_images_by_quality
      rw [foldr_insertDesc_head, hfmx]
      rfl
    have hmark : markCluster (a1 :: a2 :: rest)
        = (a1 :: a2 :: rest).map (fun m =>
            if m.image_id = x.1.image_id then (m.image_id, false, true)
            else (m.image_id, true, false)) := by
      unfold markCluster
      rw [hfb]
    refine ⟨x.1, hfb, hidx, hbound, ?_, ?_, ?_⟩
    · rw [hmark]
      obtain ⟨i, hi, hget, _⟩ := hidx
      have hbm : x.1 ∈ a1 :: a2 :: rest := hget ▸ List.get_mem _ i hi
      have hmm := List.mem_map_of_mem (fun m =>
          if m.image_id = x.1.image_id then (m.image_id, false, true)
          else (m.image_id, true, false)) hbm
      simpa using hmm
    · intro m hm hne
      rw [hmark]
      have hmm := List.mem_map_of_mem (fun m =>
          if m.image_id = x.1.image_id then (m.image_id, false, true)
          else (m.image_id, true, false)) hm
      simpa [hne] using hmm
    · intro e he htrue
      rw [hmark, List.mem_map] at he
      obtain ⟨m, _, hfm⟩ := he
      by_cases hid : m.image_id = x.1.image_id
      · rw [if_pos hid] at hfm
        rw [← hfm]
        exact hid
      · rw [if_neg hid] at hfm
        rw [← hfm] at htrue
        simp at htrue

/-- Witness for (amended) C4 at a concrete two-member cluster. -/
theorem best_is_first_argmax_and_flags_witness :
    ∃ b, find_best_image [⟨"w-a", 0, ⟨1, 0, 0, 0⟩⟩, ⟨"w-b", 1, ⟨0, 0, 0, 0⟩⟩]
        = some b ∧
      (∃ i, ∃ hi : i < ([⟨"w-a", 0, ⟨1, 0, 0, 0⟩⟩,
          ⟨"w-b", 1, ⟨0, 0, 0, 0⟩⟩] : List Member).length,
        ([⟨"w-a", 0, ⟨1, 0, 0, 0⟩⟩, ⟨"w-b", 1, ⟨0, 0, 0, 0⟩⟩] : List Member).get
            ⟨i, hi⟩ = b ∧
        ∀ j, j < i → ∀ hj : j < ([⟨"w-a", 0, ⟨1, 0, 0, 0⟩⟩,
            ⟨"w-b", 1, ⟨0, 0, 0, 0⟩⟩] : List Member).length,
          overall_score ((([⟨"w-a", 0, ⟨1, 0, 0, 0⟩⟩,
              ⟨"w-b", 1, ⟨0, 0, 0, 0⟩⟩] : List Member).get ⟨j, hj⟩).metrics)
            < overall_score b.metrics) ∧
      (∀ m ∈ ([⟨"w-a", 0, ⟨1, 0, 0, 0⟩⟩, ⟨"w-b", 1, ⟨0, 0, 0, 0⟩⟩] : List Member),
        overall_score m.metrics ≤ overall_score b.metrics) ∧
      (b.image_id, false, true)
        ∈ markCluster [⟨"w-a", 0, ⟨1, 0, 0, 0⟩⟩, ⟨"w-b", 1, ⟨0, 0, 0, 0⟩⟩] ∧
      (∀ m ∈ ([⟨"w-a", 0, ⟨1, 0, 0, 0⟩⟩, ⟨"w-b", 1, ⟨0, 0, 0, 0⟩⟩] : List Member),
        m.image_id ≠ b.image_id → (m.image_id, true, false)
          ∈ markCluster [⟨"w-a", 0, ⟨1, 0, 0, 0⟩⟩, ⟨"w-b", 1, ⟨0, 0, 0, 0⟩⟩]) ∧
      (∀ e ∈ markCluster [⟨"w-a", 0, ⟨1, 0, 0, 0⟩⟩, ⟨"w-b", 1, ⟨0, 0, 0, 0⟩⟩],
        e.2.2 = true → e.1 = b.image_id) :=
  best_is_first_argmax_and_flags
    [⟨"w-a", 0, ⟨1, 0, 0, 0⟩⟩, ⟨"w-b", 1, ⟨0, 0, 0, 0⟩⟩] (by decide)

/-- A member with zero sharpness, perfect exposure, no face: overall
`0.3`. -/
def m1c4 : Member := ⟨"img1", 0, ⟨0, 1, 0, 0⟩⟩

/-- A member with sharpness `3/4`, zero exposure, no face: overall `0.3`
as well, but strictly higher sharpness than `m1c4`. -/
def m2c4 : Member := ⟨"img2", 0, ⟨3/4, 0, 0, 0⟩⟩

/-- C4 is false as stated: on two members with equal overall quality the
code keeps the first of the list, while the spec's tie-break chain
(higher sharpness first) selects the second. -/
theorem representative_selector_ignores_tiebreak :
    find_best_image [m1c4, m2c4] = some m1c4 ∧
    specBest [m1c4, m2c4] = some m2c4 ∧
    overall_score m1c4.metrics = overall_score m2c4.metrics ∧
    m1c4.metrics.sharpness < m2c4.metrics.sharpness ∧
    m1c4 ≠ m2c4 := by
  have hq : overall_score m1c4.metrics = overall_score m2c4.metrics := by
    norm_num [overall_score, m1c4, m2c4, quality_weights_sharpness,
      quality_weights_exposure, quality_weights_faces]
  refine ⟨?_, ?_, hq, by norm_num [m1c4, m2c4],
    by intro h; exact absurd (congrArg Member.image_id h) (by decide)⟩
  · have h1 : find_best_image [m1c4, m2c4]
        = ((rank_images_by_quality [m1c4, m2c4]).head?).map Prod.fst := rfl
    rw [h1]
    unfold rank_images_by_quality
    simp only [List.map_cons, List.map_nil, List.foldr_cons, List.foldr_nil]
    rw [show insertDesc (m2c4, overall_score m2c4.metrics) []
        = [(m2c4, overall_score m2c4.metrics)] from rfl]
    unfold insertDesc
    rw [if_pos hq.ge]
    rfl
  · unfold specBest
    simp only [List.foldl_cons, List.foldl_nil]
    have hc : specPrefers m2c4 m1c4 = true := by
      unfold specPrefers
      rw [if_neg (not_not_intro hq.symm)]
      rw [if_pos (by norm_num [m1c4, m2c4])]
      simp only [decide_eq_true_eq]
      norm_num [m1c4, m2c4]
    rw [if_pos hc]

/-! ## Quality metrics on undecodable bytes
(src/services/image_processing.py, calculate_quality_metrics lines 60-90) -/

/-- The record returned by `calculate_quality_metrics`. -/
structure QualityMetricsRec where
  sharpness : ℚ
  brightness : ℚ
  contrast : ℚ
  face_count : ℕ
deriving DecidableEq

/-- The OpenCV collaborator: `cv2.imdecode` returns `None` (`none`) for
byte strings that do not decode to an image; the other fields are the
library calls applied to a decoded image. -/
structure Cv2 (Img : Type) where
  imdecode : List ℕ → Option Img
  toGray : Img → Img
  laplacianVar : Img → ℚ
  meanPixel : Img → ℚ
  stdPixel : Img → ℚ
  faceCount : Img → ℕ

/-- `calculate_quality_metrics` (lines 60-90): decode the bytes; when the
decode returns `None` the fixed record `{sharpness: 0.0, brightness: 0.0,
contrast: 0.0, face_count: 0}` is returned (line 69); otherwise the
Laplacian variance of the grayscale conversion, the mean and standard
deviation of the pixels, and the detected face count. -/
def calculate_quality_metrics {Img : Type} (cv : Cv2 Img) (image_bytes : List ℕ) :
    QualityMetricsRec :=
  match cv.imdecode image_bytes with
  | none => ⟨0, 0, 0, 0⟩
  | some img =>
    ⟨cv.laplacianVar (cv.toGray img), cv.meanPixel img, cv.stdPixel img,
     cv.faceCount (cv.toGray img)⟩

/-- C10: `calculate_quality_metrics` is a total function (it never
raises) and returns the defined zero record on every byte string the
decoder rejects. -/
theorem quality_metrics_zero_on_undecodable {Img : Type} (cv : Cv2 Img)
    (image_bytes : List ℕ) (h : cv.imdecode image_bytes = none) :
    calculate_quality_metrics cv image_bytes = ⟨0, 0, 0, 0⟩ := by
  unfold calculate_quality_metrics
  rw [h]

/-- Witness for C10 with a decoder that rejects every byte string, at the
empty input. -/
theorem quality_metrics_zero_on_undecodable_witness :
    calculate_quality_metrics
      (⟨fun _ => none, id, fun _ => 0, fun _ => 0, fun _ => 0, fun _ => 0⟩ :
        Cv2 Unit) [] = ⟨0, 0, 0, 0⟩ :=
  quality_metrics_zero_on_undecodable _ [] rfl

/-! ## Upload validation (src/app.py, upload_images lines 135-236) -/

/-- One multipart file of an upload request. -/
structure UploadFile where
  filename : String
  content_type : String
  size : ℕ
deriving DecidableEq

/-- `file.content_type.startswith('image/')`; Python's falsy check on a
missing content type coincides with the empty string not starting with
`image/`. -/
def startsWithImage (ct : String) : Bool :=
  decide (ct.data.take 6 = "image/".data)

/-- The per-file loop of `upload_images` (lines 159-201): the first file
with a non-image content type or more than 50 MiB raises
`HTTPException(400)` inside the `try`; the catch-all `except Exception`
(lines 228-236) then sets the session `failed` and re-raises HTTP 500.
On success the final session update of line 207 writes
`status = SessionStatus.CREATED` and the endpoint answers 200. -/
def uploadLoop : List UploadFile → ℕ × String
  | [] => (200, "created")
  | f :: fs =>
    if ¬ startsWithImage f.content_type then (500, "failed")
    else if 50 * 1024 * 1024 < f.size then (500, "failed")
    else uploadLoop fs

/-- `upload_images` (lines 135-236) as a function of the session's
current status and the files, returning the response's HTTP status and
the session status after the call.  More than 100 files raise 400 BEFORE
any session write (line 148); every other path first sets the status to
`uploading` (line 152) and then runs the loop. -/
def upload_images (status0 : String) (files : List UploadFile) : ℕ × String :=
  if 100 < files.length then (400, status0)
  else uploadLoop files

/-- C5 evaluated on the code: a 2-file upload whose second file is not an
image, and a one-file upload exceeding 50 MiB, both surface as HTTP 500
with the session transitioned to `failed` — the deliberate 400 of lines
161-167 is swallowed by the catch-all handler — while only the
too-many-files check yields a 400 that leaves the status untouched. -/
theorem upload_validation_failure_faults_session :
    upload_images "created"
      [⟨"ok.jpg", "image/jpeg", 100⟩, ⟨"doc.txt", "text/plain", 10⟩]
      = (500, "failed") ∧
    upload_images "created" [⟨"big.jpg", "image/jpeg", 50 * 1024 * 1024 + 1⟩]
      = (500, "failed") ∧
    upload_images "created"
      (List.replicate 101 ⟨"ok.jpg", "image/jpeg", 100⟩) = (400, "created") := by
  refine ⟨rfl, rfl, rfl⟩

/-! ## Blob naming (src/services/azure_storage.py, upload_file lines
25-44; src/app.py lines 175-176) -/

/-- Line 31 of `azure_storage.upload_file`:
`blob_name = f"{session_id}/{uuid.uuid4()}_{filename}"`, with the fresh
`uuid.uuid4()` value passed in explicitly. -/
def azure_upload_blob_name (session_id uuid filename : String) : String :=
  session_id ++ "/" ++ uuid ++ "_" ++ filename

/-- Line 175 of `app.py`:
`blob_name = f"{session_id}/{file.filename}"` — no unique part. -/
def app_upload_blob_name (session_id filename : String) : String :=
  session_id ++ "/" ++ filename

/-- A blob `put` with overwrite (spec §4.1, and
`upload_blob(…, overwrite=True)` in azure_storage.py line 42): the key
set of the store after writing `key`. -/
def putBlob (blobs : List String) (key : String) : List String :=
  if key ∈ blobs then blobs else blobs ++ [key]

/-- C8 is false as stated for the session-path upload endpoint
(`src/app.py`): two uploads of the same bytes under the same filename
produce the SAME blob key, `s1/photo.jpg`, with no unique suffix, and the
second put overwrites the first — the blob store holds a single
object (two Image rows are still inserted, pointing at that one blob). -/
theorem app_upload_same_filename_same_key :
    app_upload_blob_name "s1" "photo.jpg" = "s1/photo.jpg" ∧
    putBlob (putBlob [] (app_upload_blob_name "s1" "photo.jpg"))
      (app_upload_blob_name "s1" "photo.jpg") = ["s1/photo.jpg"] := by
  constructor <;> rfl

/-- C8 (amended): the blob adapter `azure_storage.upload_file` used by the
token-based flow does follow the unique-suffix rule: keys are
`<session>/<uuid>_<filename>` (underscore separator), distinct `uuid4`
values give distinct keys for the same filename, and the second put lands
next to the first instead of overwriting it. -/
theorem azure_upload_distinct_keys (s f u1 u2 : String) (hne : u1 ≠ u2) :
    azure_upload_blob_name s u1 f ≠ azure_upload_blob_name s u2 f ∧
    (putBlob (putBlob [] (azure_upload_blob_name s u1 f))
      (azure_upload_blob_name s u2 f)).length = 2 := by
  have hkey : azure_upload_blob_name s u1 f ≠ azure_upload_blob_name s u2 f := by
    intro hcon
    apply hne
    have hdata := congrArg String.data hcon
    unfold azure_upload_blob_name at hdata
    simp only [String.data_append, List.append_assoc] at hdata
    have h1 := List.append_cancel_left hdata
    have h2 := List.append_cancel_left h1
    have h3 := List.append_cancel_right h2
    exact String.ext h3
  refine ⟨hkey, ?_⟩
  have hput1 : putBlob [] (azure_upload_blob_name s u1 f)
      = [azure_upload_blob_name s u1 f] := by
    simp [putBlob]
  rw [hput1]
  unfold putBlob
  rw [if_neg (by
    rw [List.mem_singleton]
    exact fun h => hkey h.symm)]
  rfl

/-- Witness for (amended) C8 at concrete session, uuids and filename. -/
theorem azure_upload_distinct_keys_witness :
    azure_upload_blob_name "s1" "u-1" "photo.jpg"
      ≠ azure_upload_blob_name "s1" "u-2" "photo.jpg" ∧
    (putBlob (putBlob [] (azure_upload_blob_name "s1" "u-1" "photo.jpg"))
      (azure_upload_blob_name "s1" "u-2" "photo.jpg")).length = 2 :=
  azure_upload_distinct_keys "s1" "photo.jpg" "u-1" "u-2" (by decide)

/-! ## Deletion confirmation (src/app.py, confirm_deletions lines 379-424) -/

/-- The image-row fields `confirm_deletions` touches. -/
structure ImgRow where
  image_id : String
  blob_name : String
  file_size : ℕ
  delete_recommended : Bool
  deleted : Bool
  deleted_at : Option ℕ
deriving DecidableEq

/-- The catalog rows of a session together with the blob store keys. -/
structure DelState where
  images : List ImgRow
  blobs : List String
deriving DecidableEq

/-- Modelled from the spec: the blob adapter `azure_blob_service` that
`src/app.py` imports is not among the repository sources; §4.1 of the
spec specifies `delete(key) → void` as an idempotent delete for which a
missing object is not an error.  `delete_object` therefore always
succeeds and removes the key when present. -/
def delete_object (blobs : List String) (key : String) : List String :=
  blobs.filter (fun k => k != key)

/-- `confirm_deletions` (lines 379-424): select the images with
`delete_recommended = true` — the `deleted` flag is NOT consulted — and
for each one delete its blob, set `deleted = true, deleted_at = now`, and
accumulate the count and freed bytes; with nothing selected, return a
zero count and leave the state alone.  The result is
`(deleted_count, space_freed_bytes, new state)`; `now` is the call's
timestamp. -/
def confirm_deletions (now : ℕ) (st : DelState) : ℕ × ℕ × DelState :=
  let toDelete := st.images.filter (fun r => r.delete_recommended)
  if toDelete.length = 0 then (0, 0, st)
  else
    ( toDelete.length
    , (toDelete.map (fun r => r.file_size)).sum
    , { images := st.images.map (fun r =>
          if r.delete_recommended then
            { r with deleted := true, deleted_at := some now }
          else r)
      , blobs := toDelete.foldl (fun bs r => delete_object bs r.blob_name)
          st.blobs } )

/-- C3 evaluated on the code: starting from a session with one image
flagged for deletion and not yet deleted, the first call deletes it
(count 1, 100 bytes freed, row marked deleted); the SECOND call — with no
newly flagged images — again returns `deleted_count = 1` and 100 bytes,
and rewrites the row (`deleted_at` moves to the new timestamp), because
the selection filter never excludes already-deleted images.  The claim
expects `deleted_count = 0` and no row change. -/
theorem confirm_deletions_not_idempotent :
    (confirm_deletions 1 ⟨[⟨"img-1", "s1/img1.jpg", 100, true, false, none⟩],
        ["s1/img1.jpg"]⟩).1 = 1 ∧
    (confirm_deletions 2 (confirm_deletions 1
        ⟨[⟨"img-1", "s1/img1.jpg", 100, true, false, none⟩],
          ["s1/img1.jpg"]⟩).2.2).1 = 1 ∧
    (confirm_deletions 2 (confirm_deletions 1
        ⟨[⟨"img-1", "s1/img1.jpg", 100, true, false, none⟩],
          ["s1/img1.jpg"]⟩).2.2).2.1 = 100 ∧
    (confirm_deletions 2 (confirm_deletions 1
        ⟨[⟨"img-1", "s1/img1.jpg", 100, true, false, none⟩],
          ["s1/img1.jpg"]⟩).2.2).2.2
      ≠ (confirm_deletions 1
        ⟨[⟨"img-1", "s1/img1.jpg", 100, true, false, none⟩],
          ["s1/img1.jpg"]⟩).2.2 := by
  refine ⟨rfl, rfl, rfl, ?_⟩
  decide
